import Mathlib

/-!
Verification of the abap repository (audiobooks-as-podcasts).

This file gives a shallow embedding of the core of `src/abap.py` (and, where
the claims reference them, of `src/abap/utils.py`, `src/abap/scan.py` and
`src/abap/abook.py`) and proves or refutes the frozen claims about it.

Modelling conventions:
* Python strings are `String`; Python compares them lexicographically by code
  point, which we model with `charListLt` on the underlying character lists.
* Python `sorted` is a stable sort.  The output of a stable sort is uniquely
  determined by the ordering relation and the input order, so we model every
  `sorted(...)` call with `List.insertionSort`, which Mathlib proves sorted and
  stable.  The relation passed is `key a <= key b`, matching the CPython
  contract for `sorted(xs, key=k)`.
* Python dicts with string keys are association lists; a dict comprehension
  where a later binding overwrites an earlier one is modelled by looking the
  key up from the right (`dictLookup`).
* Fallible code (`ValueError` from `int()` and `float()`, `SystemExit`) is
  modelled with `Except String`.
* `pathlib.Path` values are kept as strings; `directory / p` is string
  concatenation with a slash.  (Python orders `Path` objects by their part
  tuples; for the sibling file names appearing in all claims this agrees with
  plain string order.)
-/

/-! ### String ordering (Python string comparison, by code point) -/

/-- Lexicographic strict order on character lists, by code point: the model of
Python string `<`. -/
def charListLt : List Char → List Char → Bool
  | _, [] => false
  | [], _ :: _ => true
  | a :: as, b :: bs => if a < b then true else if b < a then false else charListLt as bs

/-- Python string `<`. -/
def strLt (a b : String) : Bool := charListLt a.data b.data

/-- Python string `<=` (the negation of `>` for this total order). -/
def strLe (a b : String) : Bool := !(strLt b a)

/-! ### Durations (`parse_duration` / `format_duration`)

The two functions appear, textually identical, in `src/abap.py` and
`src/abap/utils.py`; we embed them once. -/

/-- Value of a run of decimal digits, as `int()` computes it. -/
def digitsVal (l : List Char) : Nat :=
  l.foldl (fun acc c => acc * 10 + (c.toNat - 48)) 0

/-- Value of an unsigned run of decimal digits, or an error when the list is
empty or holds a non-digit. -/
def parseNatDigits (l : List Char) : Except String Nat :=
  if l ≠ [] ∧ l.all Char.isDigit then .ok (digitsVal l)
  else .error "invalid literal for int"

/-- Model of Python `int(s)`: an optional sign followed by at least one digit.
(The whitespace and underscore tolerance of CPython `int` is irrelevant to
every claim and is not modelled.) -/
def parseIntChars (l : List Char) : Except String Int :=
  if l.head? = some '-' then (parseNatDigits l.tail).map (fun n => -(n : Int))
  else if l.head? = some '+' then (parseNatDigits l.tail).map (fun n => (n : Int))
  else (parseNatDigits l).map (fun n => (n : Int))

/-- Round half to even, the rounding mode of Python `round`. -/
def roundHalfEven (num den : Nat) : Nat :=
  let q := num / den
  let r := num % den
  if 2 * r < den then q
  else if den < 2 * r then q + 1
  else if q % 2 = 0 then q else q + 1

/-- Model of `round(float(ds[ms_sep_pos:]) * 1_000)` in `parse_duration`: the
argument always starts with the dot found by `rfind`.  We compute the exact
rational rounding; the IEEE-754 value CPython rounds differs from the exact
one only in hairline cases not touched by any claim, and exponent notation
accepted by `float` is likewise not modelled. -/
def parseMsPart (l : List Char) : Except String Int :=
  match l with
  | '.' :: ds =>
    if ds ≠ [] ∧ ds.all Char.isDigit then
      .ok (roundHalfEven (digitsVal ds * 1000) (10 ^ ds.length) : Nat)
    else .error "could not convert string to float"
  | _ => .error "could not convert string to float"

/-- Index of the last occurrence of `c`, the model of Python `str.rfind`. -/
def rfindChar (c : Char) : List Char → Option Nat
  | [] => none
  | x :: xs =>
    match rfindChar c xs with
    | some i => some (i + 1)
    | none => if x = c then some 0 else none

/-- Time part of a duration string: everything before the last dot (the whole
string when there is no dot), exactly the `ds` that `parse_duration` counts
colons in. -/
def time_part (l : List Char) : List Char :=
  match rfindChar '.' l with
  | some i => l.take i
  | none => l

/-- Model of Python `str.split(sep)` for a one-character separator. -/
def splitOnChar (c : Char) : List Char → List (List Char)
  | [] => [[]]
  | x :: xs =>
    if x = c then [] :: splitOnChar c xs
    else
      match splitOnChar c xs with
      | [] => [[x]]
      | h :: t => (x :: h) :: t

/-- Common tail of `parse_duration`: split the (dot-stripped) string on colons
and combine; `ms` is the already-parsed millisecond part.  Python unpacks the
`split` result into exactly `n + 1` names, which cannot fail, so the fallback
arms are unreachable. -/
def parseHMS (ds : List Char) (ms : Int) : Except String Int :=
  let n := ds.count ':'
  if n = 2 then
    match splitOnChar ':' ds with
    | [a, b, c] =>
      (parseIntChars a).bind fun h =>
        (parseIntChars b).bind fun m =>
          (parseIntChars c).bind fun s =>
            .ok ((((h * 60) + m) * 60 + s) * 1000 + ms)
    | _ => .error "Unsupported format"
  else if n = 1 then
    match splitOnChar ':' ds with
    | [b, c] =>
      (parseIntChars b).bind fun m =>
        (parseIntChars c).bind fun s =>
          .ok ((((0 * 60) + m) * 60 + s) * 1000 + ms)
    | _ => .error "Unsupported format"
  else if n = 0 then
    match splitOnChar ':' ds with
    | [c] =>
      (parseIntChars c).bind fun s =>
        .ok ((((0 * 60) + 0) * 60 + s) * 1000 + ms)
    | _ => .error "Unsupported format"
  else .error "Unsupported format"

/-- Embedding of `parse_duration` (`src/abap.py` lines 202-220 and, textually
identical, `src/abap/utils.py` lines 57-75). -/
def parse_duration (s : String) : Except String Int :=
  let l := s.data
  if l.isEmpty then .ok 0
  else
    match rfindChar '.' l with
    | some i => (parseMsPart (l.drop i)).bind fun ms => parseHMS (l.take i) ms
    | none => parseHMS l 0

/-- Decimal digits of a natural number, the model of how Python formats an
integer in decimal. -/
def natToDecimal (n : Nat) : List Char :=
  if _h : n < 10 then [Nat.digitChar n]
  else natToDecimal (n / 10) ++ [Nat.digitChar (n % 10)]
decreasing_by exact Nat.div_lt_self (by omega) (by omega)

/-- Zero-pad to width two, the model of the minimum-width part of the format
spec `02.0f` applied to a non-negative integer. -/
def pad2 (l : List Char) : List Char :=
  if 2 ≤ l.length then l else List.replicate (2 - l.length) '0' ++ l

/-- Exponent search used by `floatOfNat`: the least `b` at or above the start
value with `n < 2 ^ (b + 1)`, found by bounded iteration (the fuel of 1024
steps starting at 53 covers every IEEE-754 double exponent; past the fuel the
caller is in the overflow regime regardless of the exact exponent). -/
def floatExpFrom (n : Nat) : Nat → Nat → Nat
  | b, 0 => b
  | b, fuel + 1 => if n < 2 ^ (b + 1) then b else floatExpFrom n (b + 1) fuel

/-- Model of CPython int-to-float conversion, which the format spec `02.0f`
applies to each part before printing: round the integer to the nearest
IEEE-754 double (53-bit significand, ties to the even significand), returning
the exact natural-number value of that double; `none` when the rounded value
reaches `2 ^ 1024` (CPython raises `OverflowError`).  Every such double is
integer-valued, so the subsequent `.0f` rounding to zero decimals is the
identity and printing it yields exactly its decimal digits.  The overflow
test is phrased through the same exponent search — the rounded value is
below `2 ^ 1024` exactly when its exponent is at most 1023 — so that
evaluating the conversion at small inputs never computes a huge power. -/
def floatOfNat (n : Nat) : Option Nat :=
  if n < 2 ^ 53 then some n
  else
    let b := floatExpFrom n 53 1024
    let ulp := 2 ^ (b - 52)
    let q := n / ulp
    let r := n % ulp
    let q' := if 2 * r < ulp then q
      else if ulp < 2 * r then q + 1
      else if q % 2 = 0 then q else q + 1
    if floatExpFrom (q' * ulp) 53 1024 ≤ 1023 then some (q' * ulp) else none

/-- Embedding of `format_duration` (`src/abap.py` lines 223-227 and
`src/abap/utils.py` lines 50-54): repeated `divmod`, then each of the three
parts rendered with the format spec `02.0f`, which converts the integer to a
float (`floatOfNat`; the `OverflowError` of that conversion becomes an error
result) and prints its exact decimal value zero-padded to width two.  The
source annotates the argument as `int`; every caller passes a non-negative
duration and the claim about it quantifies over non-negative values, so the
model takes a `Nat`. -/
def format_duration (miliseconds : Nat) : Except String String :=
  let seconds := miliseconds / 1000
  let minutes := seconds / 60
  let s := seconds % 60
  let hours := minutes / 60
  let m := minutes % 60
  match floatOfNat hours, floatOfNat m, floatOfNat s with
  | some fh, some fm, some fs =>
    .ok (String.mk (pad2 (natToDecimal fh) ++ ':' :: (pad2 (natToDecimal fm) ++
      ':' :: pad2 (natToDecimal fs))))
  | _, _, _ => .error "int too large to convert to float"

/-! ### Slugs -/

/-- Membership in `ALPHANUMERIC = string.ascii_letters + string.digits`. -/
def isAlnumAscii (c : Char) : Bool := c.isAlpha || c.isDigit

/-- Strip every leading and trailing `c`, the model of Python
`str.strip(c)`. -/
def stripChar (c : Char) (l : List Char) : List Char :=
  ((l.dropWhile (· = c)).reverse.dropWhile (· = c)).reverse

/-- Character loop of `slugify` in `src/abap.py`: keeps alphanumerics, emits
the replacement for other characters unless the previous emitted character was
already the replacement. -/
def slugifyAux (replacement : Char) : List Char → Option Char → List Char
  | [], _ => []
  | c :: rest, prev =>
    if isAlnumAscii c then c :: slugifyAux replacement rest (some c)
    else if prev = some replacement then slugifyAux replacement rest prev
    else replacement :: slugifyAux replacement rest (some replacement)

/-- Embedding of `slugify` (`src/abap.py` lines 187-199): collapse runs of
non-alphanumerics to one replacement, strip it from both ends, lower-case.
By the time `lower` runs the string holds only ASCII alphanumerics and the
replacement, so ASCII `Char.toLower` is exact. -/
def slugify (s : String) (replacement : Char := '_') : String :=
  String.mk ((stripChar replacement (slugifyAux replacement s.data none)).map Char.toLower)

/-- Embedding of `slugify` from `src/abap/utils.py` lines 86-88: replaces each
non-alphanumeric character by an underscore without collapsing runs, then
strips and lower-cases.  Note this differs from the `src/abap.py` version. -/
def utils_slugify (s : String) : String :=
  String.mk ((stripChar '_' (s.data.map (fun c => if isAlnumAscii c then c else '_'))).map
    Char.toLower)

/-- Statement of the claimed slug behaviour, written from the words of the
spec: each maximal run of consecutive non-alphanumerics becomes one
underscore.  `collapseSep` removes the duplicate underscores left by a
character-by-character replacement. -/
def collapseSep : List Char → List Char
  | [] => []
  | [c] => [c]
  | a :: b :: rest =>
    if a = '_' ∧ b = '_' then collapseSep (b :: rest)
    else a :: collapseSep (b :: rest)

/-- Spec-worded slugify (see `collapseSep`), used to compare against the
source-translated `slugify`. -/
def slugifySpec (s : String) : String :=
  String.mk ((stripChar '_' (collapseSep (s.data.map (fun c =>
    if isAlnumAscii c then c else '_')))).map Char.toLower)

/-! ### Filesystem scanner (`labeled_scan`, `src/abap.py` lines 151-172 and
`src/abap/scan.py` lines 32-54)

The recursive directory walk `labeled_scan_iter` is modelled by the flattened
list of files it visits, in traversal order; the claims quantify over that
order.  For each visited file it yields one `(label, path)` pair per matching
classifier, in classifier order. -/

/-- Embedding of `labeled_scan_iter`: label/path pairs in traversal order. -/
def labeled_scan_iter (files : List String)
    (label_funcs : List (String × (String → Bool))) : List (String × String) :=
  files.foldr
    (fun f acc => ((label_funcs.filter (fun lf => lf.2 f)).map (fun lf => (lf.1, f))) ++ acc)
    []

/-- Model of `itertools.groupby` composed with the dict comprehension in
`labeled_scan`: groups consecutive pairs with equal labels. -/
def groupByLabel : List (String × String) → List (String × List String)
  | [] => []
  | (l, p) :: rest =>
    match groupByLabel rest with
    | [] => [(l, [p])]
    | (l2, ps) :: gs => if l = l2 then (l, p :: ps) :: gs else (l, [p]) :: (l2, ps) :: gs

/-- Embedding of `labeled_scan`: sort the yielded pairs by label only
(`key=first`, a stable sort), then group consecutive equal labels into the
result dict. -/
def labeled_scan (files : List String)
    (label_funcs : List (String × (String → Bool))) : List (String × List String) :=
  groupByLabel ((labeled_scan_iter files label_funcs).insertionSort
    (fun a b => strLe a.1 b.1 = true))

/-- Dict lookup in the scan result. -/
def dictFind (k : String) : List (String × List String) → Option (List String)
  | [] => none
  | (l, ps) :: rest => if l = k then some ps else dictFind k rest

/-! ### Data model

Python dicts with a known key set are structures whose optional keys are
`Option` fields; a key that is always present is a plain field. -/

/-- Start of a chapter.  Chapters validated through `CHAPTER_SCHEMA` carry a
parsed millisecond value (`schema.Use(parse_duration)`); chapters read from
audio tags carry the raw tag string, which `from_dir` never parses. -/
inductive ChapterStart
  | parsed (ms : Int)
  | raw (s : String)
deriving DecidableEq

/-- One chapter dict. -/
structure Chapter where
  name : String
  start : ChapterStart
  url : Option String
deriving DecidableEq

/-- One item dict of a built audiobook (`from_dir` output, later mutated by
`merge`).  The `album` key is always popped at the end of `from_dir` and is
therefore not modelled. -/
structure Item where
  path : String
  title : Option String
  authors : Option (List String)
  size : Option Nat
  mimetype : Option String
  duration : Option Int
  description : Option String
  categories : Option (List String)
  chapters : Option (List Chapter)
  sequence : Option Int
  explicit : Option Bool
deriving DecidableEq

/-- One item entry of a manifest validated by `ITEM_SCHEMA`: `path` is
required, everything else optional. -/
structure MItem where
  path : String
  authors : Option (List String)
  sequence : Option Int
  explicit : Option Bool
  title : Option String
  description : Option String
  categories : Option (List String)
  chapters : Option (List Chapter)
deriving DecidableEq

/-- A manifest document validated by `ABOOK_SCHEMA`: every field optional. -/
structure Manifest where
  authors : Option (List String)
  title : Option String
  description : Option String
  slug : Option String
  categories : Option (List String)
  explicit : Option Bool
  items : Option (List MItem)
  cover : Option String
deriving DecidableEq

/-- The channel-level dict built by `from_dir`: `title`, `authors`,
`categories`, `items` and `slug` are always set, the rest are optional. -/
structure Abook where
  title : String
  authors : List String
  slug : String
  categories : List String
  description : Option String
  explicit : Option Bool
  cover : Option String
  items : List Item
deriving DecidableEq

/-- The manifest with no data: `yaml_data or {}` when no manifest exists. -/
def emptyManifest : Manifest :=
  { authors := none, title := none, description := none, slug := none,
    categories := none, explicit := none, items := none, cover := none }

/-! ### Manifest merge engine (`merge` and `Abook.merge_manifest`,
`src/abap.py` lines 299-320 and 513-551) -/

/-- Model of `directory / path` for the relative paths used by manifests. -/
def joinPath (directory p : String) : String := directory ++ "/" ++ p

/-- Application of one manifest item entry over a derived item: only the keys
present in the manifest entry are overwritten (`title`, `categories`,
`description`, `chapters`, `sequence`, `explicit`); all other keys, including
`authors`, are untouched. -/
def applyItemOverrides (y : MItem) (it : Item) : Item :=
  { it with
    title := y.title.or it.title
    categories := y.categories.or it.categories
    description := y.description.or it.description
    chapters := y.chapters.or it.chapters
    sequence := y.sequence.or it.sequence
    explicit := y.explicit.or it.explicit }

/-- Update of the item the dict `items_by_path` maps `p` to: a dict built by
iterating the item list maps each path to the last item carrying it, so the
function is applied to the last occurrence of `p` (and nothing happens when no
item has path `p`, the logged-and-skipped case). -/
def applyToLast (p : String) (f : Item → Item) : List Item → List Item
  | [] => []
  | x :: xs =>
    if xs.any (fun y => y.path == p) then x :: applyToLast p f xs
    else if x.path == p then f x :: xs
    else x :: applyToLast p f xs

/-- Embedding of `merge` (`src/abap.py` lines 513-551).  The slug special case
fires before the channel overrides and compares against the original derived
title; the `slug` override afterwards wins when the manifest sets one.
Channel-level `explicit` and `cover` are not in the override key list and stay
untouched. -/
def merge (directory : String) (data : Abook) (yaml : Manifest) : Abook :=
  let slug0 :=
    match yaml.title, yaml.slug with
    | some t, none => if t = data.title then data.slug else slugify t
    | _, _ => data.slug
  { title := yaml.title.getD data.title
    authors := yaml.authors.getD data.authors
    categories := yaml.categories.getD data.categories
    description := yaml.description.or data.description
    slug := yaml.slug.getD slug0
    explicit := data.explicit
    cover := data.cover
    items := (yaml.items.getD []).foldl
      (fun acc mi => applyToLast (joinPath directory mi.path) (applyItemOverrides mi) acc)
      data.items }

/-- Model of `enumerate(..., start=i)`. -/
def enumerateFrom (i : Nat) : List α → List (Nat × α)
  | [] => []
  | a :: as => (i, a) :: enumerateFrom (i + 1) as

/-- The dict comprehension of `make_item_sorter`: path of each item, in sorted
path order, mapped to its 1-based position. -/
def original_sequences (items : List Item) : List (String × Nat) :=
  (enumerateFrom 1 (items.insertionSort (fun a b => strLe a.path b.path = true))).map
    (fun p => (p.2.path, p.1))

/-- Python dict lookup over an association list built left to right: the last
binding for a key wins. -/
def dictLookup (m : List (String × Nat)) (k : String) : Option Nat :=
  (m.reverse.find? (fun p => p.1 == k)).map (fun p => p.2)

/-- The key function returned by `make_item_sorter` (`src/abap.py` lines
175-184): the explicit `sequence` when the manifest set one, otherwise the
1-based rank of the item path in sorted path order.  Every item path is a key
of `original_sequences`, so the `getD` default is never reached. -/
def item_sorter_key (items : List Item) (it : Item) : Int :=
  match it.sequence with
  | some s => s
  | none => ((dictLookup (original_sequences items) it.path).getD 0 : Nat)

/-- Embedding of `Abook.merge_manifest` (`src/abap.py` lines 299-320) for an
already-validated manifest: merge, then stable-sort the items by the
`make_item_sorter` key.  `none` models both a missing manifest file and empty
manifest data (`yaml_data or {}`). -/
def merge_manifest (directory : String) (data : Abook) (yaml : Option Manifest) : Abook :=
  let d := merge directory data (yaml.getD emptyManifest)
  { d with
    items := d.items.insertionSort
      (fun a b => item_sorter_key d.items a ≤ item_sorter_key d.items b) }

/-! ### Audiobook model builders -/

/-- First-seen-order insertion, the model of `OrderedDict` key insertion. -/
def insertOD [DecidableEq α] (od : List α) (a : α) : List α :=
  if a ∈ od then od else od ++ [a]

/-- The dict returned by `get_tags` in `src/abap.py`: the keys `album`,
`title`, `categories`, `description`, `duration` and `chapters` are always
present, `authors` only when the file has a non-empty artist list.  `explicit`
is never produced by `get_tags` but `from_dir` reads it defensively, so it is
kept as an optional field of the external tag record. -/
structure Tags where
  album : Option String
  title : String
  categories : List String
  description : String
  duration : Int
  chapters : List Chapter
  authors : Option (List String)
  explicit : Option Bool

/-- Embedding of `from_dir` (`src/abap.py` lines 554-659) as a function of the
scan results (`scanAudio`, `scanCovers`), the file sizes, the MIME-type table
and the tag extractor.  Note there is no emptiness check: an empty audio list
produces an audiobook with an empty item list. -/
def from_dir (scanAudio scanCovers : List String) (sizeOf : String → Nat)
    (mimetypeOf : String → Option String) (tagsOf : String → Tags) : Abook :=
  let files := scanAudio.insertionSort (fun a b => strLe a b = true)
  let authorsAgg := files.foldl
    (fun acc f =>
      match (tagsOf f).authors with
      | some l => if l ≠ [] then l.foldl insertOD acc else acc
      | none => acc)
    []
  let albumsAgg := files.foldl
    (fun acc f =>
      match (tagsOf f).album with
      | some a => if a ≠ "" then insertOD acc a else acc
      | none => acc)
    []
  let descriptionsAgg := files.foldl
    (fun acc f =>
      if (tagsOf f).description ≠ "" then insertOD acc (tagsOf f).description else acc)
    []
  let categoriesAgg : List (List String) := files.foldl
    (fun acc f =>
      if (tagsOf f).categories ≠ [] then
        insertOD acc ((tagsOf f).categories.insertionSort (fun a b => strLe a b = true))
      else acc)
    []
  let all_non_explicit := !(files.any (fun f => (tagsOf f).explicit == some true))
  let items := files.map (fun f =>
    let tags := tagsOf f
    { path := f
      authors := some (tags.authors.getD ["Unknown author"])
      title := some tags.title
      size := some (sizeOf f)
      mimetype := mimetypeOf f
      duration := some tags.duration
      description :=
        if descriptionsAgg.length = 1 ∨ tags.description = "" then none
        else some tags.description
      categories :=
        if categoriesAgg.length = 1 ∨ tags.categories = [] then none
        else some tags.categories
      chapters := if tags.chapters = [] then none else some tags.chapters
      sequence := none
      explicit := if all_non_explicit then none else tags.explicit
      : Item })
  let title := albumsAgg.headD "Unknown title"
  { title := title
    authors := if authorsAgg = [] then ["Unknown author"] else authorsAgg
    categories :=
      if categoriesAgg = [] then []
      else ((categoriesAgg.foldl (· ++ ·) []).foldl insertOD []).insertionSort
        (fun a b => strLe a b = true)
    description := descriptionsAgg.head?
    explicit := if all_non_explicit then none else some true
    cover := scanCovers.head?
    items := items
    slug := slugify title }

/-- The tag record of `src/abap/tagutils.py` consumed by
`abook_from_directory`; `mutagen` can return `None` for any text tag. -/
structure TagsV2 where
  artist : Option String
  album : Option String
  title : Option String
  duration : Int

/-- One `Audiofile` of the `src/abap/abook.py` model. -/
structure Audiofile where
  path : String
  author : String
  title : Option String
  duration : Int
deriving DecidableEq

/-- One `Artifact` of the `src/abap/abook.py` model. -/
structure Artifact where
  path : String
  description : String
  type : String
deriving DecidableEq

/-- The `Abook` aggregate of `src/abap/abook.py` (only the fields
`abook_from_directory` constructs). -/
structure AbookV2 where
  directory : String
  authors : List String
  title : String
  slug : String
  audiofiles : List Audiofile
  artifacts : List Artifact
deriving DecidableEq

/-- Model of `path.relative_to(directory)` for paths under `directory`. -/
def relativeTo (directory p : String) : String :=
  let d := (directory ++ "/").data
  if d.isPrefixOf p.data then String.mk (p.data.drop d.length) else p

/-- Embedding of `abook_from_directory` (`src/abap/abook.py` lines 383-434,
repeated in `src/abap/main.py`): raises `SystemExit` when the scan found no
audio files, modelled as an error result. -/
def abook_from_directory (directory : String)
    (scanAudio scanCover scanFanart scanImage : List String)
    (tagsOf : String → TagsV2) : Except String AbookV2 :=
  let audio_files := scanAudio.insertionSort (fun a b => strLe a b = true)
  if audio_files = [] then .error "No audio files found!"
  else
    let authorOf := fun f =>
      match (tagsOf f).artist with
      | some a => if a = "" then "Unknown artist" else a
      | none => "Unknown artist"
    let authorsAgg := audio_files.foldl (fun acc f => insertOD acc (authorOf f)) []
    let albumsAgg := audio_files.foldl
      (fun acc f =>
        match (tagsOf f).album with
        | some a => if a ≠ "" then insertOD acc a else acc
        | none => acc)
      []
    let audiofiles := audio_files.map (fun f =>
      { path := relativeTo directory f
        author := authorOf f
        title := (tagsOf f).title
        duration := (tagsOf f).duration : Audiofile })
    let album := albumsAgg.headD "Unknown album"
    let step := fun (st : List String × List Artifact) (c : String) (rs : List String) =>
      rs.foldl
        (fun st r =>
          if r ∈ st.1 then st
          else (st.1 ++ [r],
            st.2 ++ [{ path := relativeTo directory r, description := c, type := c }]))
        st
    let st0 : List String × List Artifact := ([], [])
    let st1 := step st0 "cover" scanCover
    let st2 := step st1 "fanart" scanFanart
    let st3 := step st2 "image" scanImage
    .ok { directory := directory
          authors := authorsAgg
          title := album
          slug := utils_slugify album
          audiofiles := audiofiles
          artifacts := st3.2 }

/-! ### Export normalizer (`_prepare_for_export`, `src/abap.py` lines
912-941) -/

/-- One exported item: the keys of `EXPORTABLE_ITEM_KEYS` (`size`,
`mimetype`, `duration` and `sequence` are dropped). -/
structure ExportItem where
  path : String
  title : Option String
  authors : Option (List String)
  categories : Option (List String)
  chapters : Option (List Chapter)
  description : Option String
  explicit : Option Bool
deriving DecidableEq

/-- The exported document.  The fixed output key order imposed by
`by_abook_key` is presentation only and carries no information here. -/
structure ExportAbook where
  authors : List String
  title : String
  slug : String
  description : Option String
  categories : List String
  explicit : Option Bool
  cover : Option String
  items : List ExportItem
deriving DecidableEq

/-- Embedding of `items_are_equal` (`src/abap.py` lines 110-111): equal
lengths and equal sorted contents. -/
def items_are_equal (a b : List String) : Bool :=
  a.length == b.length &&
    (a.insertionSort (fun x y => strLe x y = true)) ==
      (b.insertionSort (fun x y => strLe x y = true))

/-- First-seen deduplication: the model of the `set` accumulated in
`_prepare_for_export`.  The set is only ever consumed through
`items_are_equal`, which sorts it, so its iteration order is immaterial. -/
def dedupFirstSeen (l : List String) : List String := l.foldl insertOD []

/-- Embedding of `_prepare_for_export` (`src/abap.py` lines 912-941): project
the exportable keys, relativize paths, and drop per-item `authors` everywhere
exactly when the union of the item author lists compares equal to the
channel-level author list. -/
def prepare_for_export (directory : String) (d : Abook) : ExportAbook :=
  let items0 := d.items.map (fun it =>
    { path := relativeTo directory it.path
      title := it.title
      authors := it.authors
      categories := it.categories
      chapters := it.chapters
      description := it.description
      explicit := it.explicit : ExportItem })
  let authorsSet := dedupFirstSeen (d.items.foldl (fun acc it => acc ++ it.authors.getD []) [])
  let items1 :=
    if items_are_equal authorsSet d.authors then
      items0.map (fun it => { it with authors := none })
    else items0
  { authors := d.authors
    title := d.title
    slug := d.slug
    description := d.description
    categories := d.categories
    explicit := d.explicit
    cover := d.cover.map (relativeTo directory)
    items := items1 }

/-! ### Fixtures for concrete counterexamples and witnesses -/

/-- An item dict holding only a path, as a minimal derived item. -/
def mkItem (p : String) : Item :=
  { path := p, title := none, authors := none, size := none, mimetype := none,
    duration := none, description := none, categories := none, chapters := none,
    sequence := none, explicit := none }

/-- A manifest item entry holding only the required path. -/
def mkMItem (p : String) : MItem :=
  { path := p, authors := none, sequence := none, explicit := none,
    title := none, description := none, categories := none, chapters := none }

/-- A small channel dict around the given items. -/
def mkBook (items : List Item) : Abook :=
  { title := "T", authors := ["A"], slug := "t", categories := [],
    description := none, explicit := none, cover := none, items := items }

/-- Derived items in the order `[b.mp3, a.mp3]` of the claimed scenario. -/
def scenarioBookBA : Abook := mkBook [mkItem "r/b.mp3", mkItem "r/a.mp3"]

/-- Derived items in sorted path order `[a.mp3, b.mp3]`. -/
def scenarioBookAB : Abook := mkBook [mkItem "r/a.mp3", mkItem "r/b.mp3"]

/-- A complete manifest listing the items in the order `[b.mp3, a.mp3]`, with
no explicit sequence on either. -/
def scenarioManifestBA : Manifest :=
  { emptyManifest with items := some [mkMItem "b.mp3", mkMItem "a.mp3"] }

/-- A derived channel titled `Foo` with slug `foo`. -/
def bookFoo : Abook :=
  { title := "Foo", authors := ["A"], slug := "foo", categories := [],
    description := none, explicit := none, cover := none, items := [] }

/-- A manifest that only renames the book to a title of punctuation. -/
def manifestBang : Manifest := { emptyManifest with title := some "!!!" }

/-- A tag record with nothing in it, for exercising the builders. -/
def emptyTags : Tags :=
  { album := none, title := "t", categories := [], description := "",
    duration := 0, chapters := [], authors := none, explicit := none }

/-- A derived book whose two items have author lists `[A]` and `[B]` while the
channel lists `[A, B]`. -/
def exportBook : Abook :=
  { title := "T", authors := ["A", "B"], slug := "t", categories := [],
    description := none, explicit := none, cover := none,
    items := [{ mkItem "r/p1" with authors := some ["A"] },
              { mkItem "r/p2" with authors := some ["B"] }] }

theorem charListLt_nil_right : ∀ l : List Char, charListLt l [] = false
  | [] => rfl
  | _ :: _ => rfl

theorem charListLt_nil_left (b : Char) (bs : List Char) :
    charListLt [] (b :: bs) = true := rfl

theorem charListLt_cons (a b : Char) (as bs : List Char) :
    charListLt (a :: as) (b :: bs) =
      if a < b then true else if b < a then false else charListLt as bs := rfl

theorem charListLt_irrefl : ∀ l : List Char, charListLt l l = false
  | [] => rfl
  | a :: as => by
    rw [charListLt_cons, if_neg (lt_irrefl a), if_neg (lt_irrefl a)]
    exact charListLt_irrefl as

theorem charListLt_asymm : ∀ {a b : List Char}, charListLt a b = true → charListLt b a = false
  | _, [], h => absurd h (by simp [charListLt_nil_right])
  | [], _ :: _, _ => charListLt_nil_right _
  | a :: as, b :: bs, h => by
    rw [charListLt_cons] at h
    rw [charListLt_cons]
    rcases lt_trichotomy a b with hab | hab | hab
    · rw [if_neg (asymm hab), if_pos hab]
    · subst hab
      rw [if_neg (lt_irrefl a), if_neg (lt_irrefl a)] at h ⊢
      exact charListLt_asymm h
    · rw [if_neg (asymm hab), if_pos hab] at h
      exact absurd h (by simp)

theorem charListLt_not_trans :
    ∀ {a b c : List Char}, charListLt b a = false → charListLt c b = false →
      charListLt c a = false
  | [], _, _, _, _ => charListLt_nil_right _
  | _ :: _, [], _, hba, _ => absurd hba (by simp [charListLt_nil_left])
  | _ :: _, _ :: _, [], _, hcb => absurd hcb (by simp [charListLt_nil_left])
  | a :: as, b :: bs, c :: cs, hba, hcb => by
    rw [charListLt_cons] at hba hcb
    rw [charListLt_cons]
    rcases lt_trichotomy b a with h1 | h1 | h1
    · rw [if_pos h1] at hba
      exact absurd hba (by simp)
    · subst h1
      rw [if_neg (lt_irrefl b), if_neg (lt_irrefl b)] at hba
      rcases lt_trichotomy c b with h2 | h2 | h2
      · rw [if_pos h2] at hcb
        exact absurd hcb (by simp)
      · subst h2
        rw [if_neg (lt_irrefl c), if_neg (lt_irrefl c)] at hcb ⊢
        exact charListLt_not_trans hba hcb
      · rw [if_neg (asymm h2), if_pos h2]
    · rcases lt_trichotomy c b with h2 | h2 | h2
      · rw [if_pos h2] at hcb
        exact absurd hcb (by simp)
      · subst h2
        rw [if_neg (asymm h1), if_pos h1]
      · have h3 : a < c := lt_trans h1 h2
        rw [if_neg (asymm h3), if_pos h3]

theorem charListLt_conn :
    ∀ {a b : List Char}, charListLt a b = false → charListLt b a = false → a = b
  | [], [], _, _ => rfl
  | [], _ :: _, hab, _ => absurd hab (by simp [charListLt_nil_left])
  | _ :: _, [], _, hba => absurd hba (by simp [charListLt_nil_left])
  | a :: as, b :: bs, hab, hba => by
    rw [charListLt_cons] at hab hba
    rcases lt_trichotomy a b with h1 | h1 | h1
    · rw [if_pos h1] at hab
      exact absurd hab (by simp)
    · subst h1
      rw [if_neg (lt_irrefl a), if_neg (lt_irrefl a)] at hab hba
      rw [charListLt_conn hab hba]
    · rw [if_pos h1] at hba
      exact absurd hba (by simp)

theorem strLe_refl (a : String) : strLe a a = true := by
  simp [strLe, strLt, charListLt_irrefl]

theorem strLe_trans {a b c : String} (h1 : strLe a b = true) (h2 : strLe b c = true) :
    strLe a c = true := by
  simp only [strLe, strLt, Bool.not_eq_true', Bool.not_eq_false] at h1 h2 ⊢
  exact charListLt_not_trans h1 h2

theorem strLe_total (a b : String) : strLe a b = true ∨ strLe b a = true := by
  simp only [strLe, strLt, Bool.not_eq_true']
  rcases h : charListLt b.data a.data with _ | _
  · exact Or.inl rfl
  · exact Or.inr (charListLt_asymm h)

theorem strLe_antisymm {a b : String} (h1 : strLe a b = true) (h2 : strLe b a = true) :
    a = b := by
  simp only [strLe, strLt, Bool.not_eq_true'] at h1 h2
  exact String.toList_inj.mp (charListLt_conn h2 h1)

theorem strLt_of_ne_of_le {a b : String} (h1 : strLe a b = true) (h2 : a ≠ b) :
    strLt a b = true := by
  simp only [strLe, Bool.not_eq_true'] at h1
  rcases h : strLt a b with _ | _
  · exact absurd (strLe_antisymm (by simp [strLe, h1]) (by simp [strLe, h])) h2
  · rfl

theorem strLe_of_lt {a b : String} (h : strLt a b = true) : strLe a b = true := by
  simp only [strLe, strLt, Bool.not_eq_true'] at *
  exact charListLt_asymm h

theorem strLt_irrefl (a : String) : strLt a a = false :=
  charListLt_irrefl a.data

theorem ne_of_strLt {a b : String} (h : strLt a b = true) : a ≠ b := by
  intro he
  subst he
  rw [strLt_irrefl] at h
  exact Bool.false_ne_true h

/-! ### Lemmas about durations -/

theorem digitChar_isDigit {n : Nat} (h : n < 10) : (Nat.digitChar n).isDigit = true := by
  interval_cases n <;> decide

theorem digitChar_toNat {n : Nat} (h : n < 10) : (Nat.digitChar n).toNat - 48 = n := by
  interval_cases n <;> decide

theorem digitsVal_concat (a : List Char) (c : Char) :
    digitsVal (a ++ [c]) = digitsVal a * 10 + (c.toNat - 48) := by
  simp [digitsVal, List.foldl_append]

theorem natToDecimal_digits (n : Nat) : ∀ c ∈ natToDecimal n, c.isDigit = true := by
  induction n using natToDecimal.induct with
  | case1 n h =>
    rw [natToDecimal, dif_pos h]
    intro c hc
    rw [List.mem_singleton] at hc
    subst hc
    exact digitChar_isDigit h
  | case2 n h ih =>
    rw [natToDecimal, dif_neg h]
    intro c hc
    rcases List.mem_append.mp hc with hc | hc
    · exact ih c hc
    · rw [List.mem_singleton] at hc
      subst hc
      exact digitChar_isDigit (Nat.mod_lt _ (by omega))

theorem digitsVal_natToDecimal (n : Nat) : digitsVal (natToDecimal n) = n := by
  induction n using natToDecimal.induct with
  | case1 n h =>
    rw [natToDecimal, dif_pos h]
    simp [digitsVal, digitChar_toNat h]
  | case2 n h ih =>
    rw [natToDecimal, dif_neg h]
    rw [digitsVal_concat, ih, digitChar_toNat (Nat.mod_lt _ (by omega))]
    omega

theorem natToDecimal_ne_nil (n : Nat) : natToDecimal n ≠ [] := by
  rw [natToDecimal]
  split
  · simp
  · simp

theorem pad2_all_digits {l : List Char} (h : ∀ c ∈ l, c.isDigit = true) :
    ∀ c ∈ pad2 l, c.isDigit = true := by
  unfold pad2
  split
  · exact h
  · intro c hc
    rcases List.mem_append.mp hc with hc | hc
    · rw [List.eq_of_mem_replicate hc]
      decide
    · exact h c hc

theorem pad2_ne_nil {l : List Char} (h : l ≠ []) : pad2 l ≠ [] := by
  unfold pad2
  split
  · exact h
  · simp [h]

theorem digitsVal_cons_zero (m : List Char) : digitsVal ('0' :: m) = digitsVal m := rfl

theorem digitsVal_pad2 (l : List Char) : digitsVal (pad2 l) = digitsVal l := by
  unfold pad2
  split
  · rfl
  · have : ∀ k (m : List Char), digitsVal (List.replicate k '0' ++ m) = digitsVal m := by
      intro k
      induction k with
      | zero => intro m; rfl
      | succ k ih =>
        intro m
        rw [List.replicate_succ, List.cons_append, digitsVal_cons_zero, ih]
    exact this _ _

theorem not_special_of_isDigit {c : Char} (h : c.isDigit = true) :
    c ≠ '-' ∧ c ≠ '+' ∧ c ≠ ':' ∧ c ≠ '.' := by
  refine ⟨?_, ?_, ?_, ?_⟩ <;> (intro he; subst he; exact absurd h (by decide))

theorem parseNatDigits_of {l : List Char} (h1 : l ≠ [])
    (h2 : ∀ c ∈ l, c.isDigit = true) : parseNatDigits l = .ok (digitsVal l) := by
  rw [parseNatDigits, if_pos]
  exact ⟨h1, List.all_eq_true.mpr h2⟩

theorem parseIntChars_digits {l : List Char} (h1 : l ≠ [])
    (h2 : ∀ c ∈ l, c.isDigit = true) : parseIntChars l = .ok ((digitsVal l : Nat) : Int) := by
  obtain ⟨c, rest, rfl⟩ : ∃ c rest, l = c :: rest := by
    cases l with
    | nil => exact absurd rfl h1
    | cons c rest => exact ⟨c, rest, rfl⟩
  have hd := not_special_of_isDigit (h2 c (List.mem_cons_self c rest))
  rw [parseIntChars, if_neg (by simp [hd.1]), if_neg (by simp [hd.2.1]),
    parseNatDigits_of h1 h2]
  rfl

theorem splitOnChar_of_not_mem {c : Char} {l : List Char} (h : c ∉ l) :
    splitOnChar c l = [l] := by
  induction l with
  | nil => rfl
  | cons x xs ih =>
    have hx : ¬ x = c := fun he => h (he ▸ List.mem_cons_self x xs)
    have hxs : c ∉ xs := fun hm => h (List.mem_cons_of_mem x hm)
    rw [splitOnChar, if_neg hx, ih hxs]

theorem splitOnChar_append {c : Char} {a rest : List Char} (h : c ∉ a) :
    splitOnChar c (a ++ c :: rest) = a :: splitOnChar c rest := by
  induction a with
  | nil => simp [splitOnChar]
  | cons x xs ih =>
    have hx : ¬ x = c := fun he => h (he ▸ List.mem_cons_self x xs)
    have hxs : c ∉ xs := fun hm => h (List.mem_cons_of_mem x hm)
    rw [List.cons_append, splitOnChar, if_neg hx, ih hxs]

theorem rfindChar_eq_none {c : Char} {l : List Char} (h : c ∉ l) :
    rfindChar c l = none := by
  induction l with
  | nil => rfl
  | cons x xs ih =>
    have hx : ¬ x = c := fun he => h (he ▸ List.mem_cons_self x xs)
    have hxs : c ∉ xs := fun hm => h (List.mem_cons_of_mem x hm)
    rw [rfindChar, ih hxs, if_neg hx]

theorem mk_data (l : List Char) : (String.mk l).data = l := rfl

theorem parseHMS_error_many_colons (ds : List Char) (ms : Int)
    (h : 2 < ds.count ':') : (parseHMS ds ms).isOk = false := by
  rw [parseHMS]
  rw [if_neg (by omega), if_neg (by omega), if_neg (by omega)]
  rfl

/-- Every claim about errors only needs that the result is an error. -/
theorem parse_duration_error_many_colons (s : String)
    (h : 2 < (time_part s.data).count ':') : (parse_duration s).isOk = false := by
  have hne : s.data.isEmpty = false := by
    rcases hl : s.data with _ | ⟨x, xs⟩
    · rw [hl] at h
      simp only [time_part, rfindChar_eq_none (List.not_mem_nil '.')] at h
      simp at h
    · rfl
  rw [parse_duration]
  simp only [hne, Bool.false_eq_true, if_false]
  rcases hf : rfindChar '.' s.data with _ | i
  · simp only [time_part, hf] at h
    simp only [hf]
    exact parseHMS_error_many_colons _ _ h
  · simp only [time_part, hf] at h
    simp only [hf]
    rcases hp : parseMsPart (s.data.drop i) with e | ms
    · rfl
    · exact parseHMS_error_many_colons _ _ h

/-- Parsing `A:B:C` made of digit runs recovers the three components. -/
theorem parseHMS_digits (A B C : List Char) (nA : A ≠ []) (nB : B ≠ []) (nC : C ≠ [])
    (dA : ∀ c ∈ A, c.isDigit = true) (dB : ∀ c ∈ B, c.isDigit = true)
    (dC : ∀ c ∈ C, c.isDigit = true) (ms : Int) :
    parseHMS (A ++ ':' :: (B ++ ':' :: C)) ms =
      .ok ((((digitsVal A : Int) * 60 + digitsVal B) * 60 + digitsVal C) * 1000 + ms) := by
  have hnocolonA : ':' ∉ A := fun hmem => absurd (dA ':' hmem) (by decide)
  have hnocolonB : ':' ∉ B := fun hmem => absurd (dB ':' hmem) (by decide)
  have hnocolonC : ':' ∉ C := fun hmem => absurd (dC ':' hmem) (by decide)
  have hcount : (A ++ ':' :: (B ++ ':' :: C)).count ':' = 2 := by
    rw [List.count_append, List.count_cons_self, List.count_append, List.count_cons_self]
    rw [List.count_eq_zero.mpr hnocolonA, List.count_eq_zero.mpr hnocolonB,
      List.count_eq_zero.mpr hnocolonC]
  have hsplit : splitOnChar ':' (A ++ ':' :: (B ++ ':' :: C)) = [A, B, C] := by
    rw [splitOnChar_append hnocolonA, splitOnChar_append hnocolonB,
      splitOnChar_of_not_mem hnocolonC]
  rw [parseHMS]
  simp only [hcount, hsplit, if_pos]
  rw [parseIntChars_digits nA dA, parseIntChars_digits nB dB, parseIntChars_digits nC dC]
  simp [Except.bind]

/-- Parsing a dot-free non-empty string goes straight to `parseHMS`. -/
theorem parse_duration_no_dot (L : List Char) (h1 : L ≠ []) (h2 : '.' ∉ L) :
    parse_duration (String.mk L) = parseHMS L 0 := by
  have hE : L.isEmpty = false := by
    cases L with
    | nil => exact absurd rfl h1
    | cons a as => rfl
  rw [parse_duration]
  simp only [mk_data, hE, Bool.false_eq_true, if_false, rfindChar_eq_none h2]

/-- `Except.bind` on a success is the continuation applied to the value. -/
theorem except_bind_ok {ε α β : Type} (a : α) (f : α → Except ε β) :
    (Except.ok a : Except ε α).bind f = f a := rfl

/-- Below `2 ^ 53` the int-to-float conversion is exact. -/
theorem floatOfNat_small {n : Nat} (h : n < 2 ^ 53) : floatOfNat n = some n := by
  unfold floatOfNat
  rw [if_pos h]

/-- Parsing the formatted `HH:MM:SS` of three numbers recovers them. -/
theorem parse_format_parts (hours m s : Nat) :
    parse_duration (String.mk (pad2 (natToDecimal hours) ++ ':' :: (pad2 (natToDecimal m) ++
      ':' :: pad2 (natToDecimal s)))) =
    .ok ((((hours : Int) * 60 + m) * 60 + s) * 1000) := by
  have dA := pad2_all_digits (natToDecimal_digits hours)
  have dB := pad2_all_digits (natToDecimal_digits m)
  have dC := pad2_all_digits (natToDecimal_digits s)
  have nA : pad2 (natToDecimal hours) ≠ [] := pad2_ne_nil (natToDecimal_ne_nil hours)
  have nB : pad2 (natToDecimal m) ≠ [] := pad2_ne_nil (natToDecimal_ne_nil m)
  have nC : pad2 (natToDecimal s) ≠ [] := pad2_ne_nil (natToDecimal_ne_nil s)
  have hnodot : '.' ∉ pad2 (natToDecimal hours) ++ ':' :: (pad2 (natToDecimal m) ++
      ':' :: pad2 (natToDecimal s)) := by
    intro hc
    simp only [List.mem_append, List.mem_cons] at hc
    rcases hc with hc | hc | hc | hc | hc
    · exact absurd (dA '.' hc) (by decide)
    · exact absurd hc (by decide)
    · exact absurd (dB '.' hc) (by decide)
    · exact absurd hc (by decide)
    · exact absurd (dC '.' hc) (by decide)
  have hne : pad2 (natToDecimal hours) ++ ':' :: (pad2 (natToDecimal m) ++
      ':' :: pad2 (natToDecimal s)) ≠ [] := by
    intro he
    exact nA (List.append_eq_nil.mp he).1
  rw [parse_duration_no_dot _ hne hnodot, parseHMS_digits _ _ _ nA nB nC dA dB dC 0]
  rw [digitsVal_pad2, digitsVal_pad2, digitsVal_pad2, digitsVal_natToDecimal,
    digitsVal_natToDecimal, digitsVal_natToDecimal, add_zero]

/-! ### Claim theorems C6 and C10 -/

/-- C6: `parse_duration` returns 4333123 for `1:12:13.123`, returns 0 for the
empty string, and errors (rather than returning a number) on every string
whose time part holds more than two colons, such as `1:1:12:13`. -/
theorem C6_parse_duration_cases :
    parse_duration "1:12:13.123" = .ok 4333123 ∧ parse_duration "" = .ok 0 ∧
      ∀ s : String, 2 < (time_part s.data).count ':' → (parse_duration s).isOk = false :=
  ⟨rfl, rfl, parse_duration_error_many_colons⟩

/-- Witness for C6 at the concrete input `1:1:12:13` of the claim. -/
theorem C6_parse_duration_cases_witness :
    2 < (time_part ("1:1:12:13").data).count ':' ∧
      (parse_duration "1:1:12:13").isOk = false :=
  ⟨by decide, C6_parse_duration_cases.2.2 "1:1:12:13" (by decide)⟩

/-- C10 counterexample: `format_duration` sends the hour count through an
int-to-float conversion that rounds at `2 ^ 53`, so at `(2 ^ 53 + 1) * 3600000`
milliseconds the formatted string carries `2 ^ 53` hours and the round trip
returns a value a full hour short of `(ms / 1000) * 1000` — the unbounded
round-trip identity fails. -/
theorem C10_counterexample :
    (format_duration ((2 ^ 53 + 1) * 3600000)).bind parse_duration =
      .ok ((2 ^ 53 : Int) * 3600000) ∧
      ((2 ^ 53 : Int) * 3600000) ≠
        ((((2 ^ 53 + 1) * 3600000 / 1000 : Nat) : Int) * 1000) := by
  constructor
  · have h1 : format_duration ((2 ^ 53 + 1) * 3600000) =
        .ok (String.mk (pad2 (natToDecimal (2 ^ 53)) ++ ':' ::
          (pad2 (natToDecimal 0) ++ ':' :: pad2 (natToDecimal 0)))) := rfl
    rw [h1, except_bind_ok, parse_format_parts]
    refine congrArg Except.ok ?_
    norm_num
  · norm_num

/-- C10 (amended): below `2 ^ 53` hours every int-to-float conversion inside
`format_duration` is exact, and formatting a duration then parsing it back
truncates to whole seconds: `parse_duration (format_duration ms)` recovers
`(ms / 1000) * 1000`, the identity on every multiple of 1000 in that range. -/
theorem C10_format_parse_roundtrip (ms : Nat) (h : ms < 2 ^ 53 * 3600000) :
    (format_duration ms).bind parse_duration =
      .ok (((ms / 1000 : Nat) : Int) * 1000) := by
  have h53 : (2 : Nat) ^ 53 = 9007199254740992 := by norm_num
  have hh : ms / 1000 / 60 / 60 < 2 ^ 53 := by rw [h53] at h ⊢; omega
  have hm : ms / 1000 / 60 % 60 < 2 ^ 53 := by rw [h53]; omega
  have hs : ms / 1000 % 60 < 2 ^ 53 := by rw [h53]; omega
  have hfmt : format_duration ms =
      .ok (String.mk (pad2 (natToDecimal (ms / 1000 / 60 / 60)) ++
        ':' :: (pad2 (natToDecimal (ms / 1000 / 60 % 60)) ++
        ':' :: pad2 (natToDecimal (ms / 1000 % 60))))) := by
    simp only [format_duration, floatOfNat_small hh, floatOfNat_small hm, floatOfNat_small hs]
  rw [hfmt, except_bind_ok, parse_format_parts]
  refine congrArg Except.ok ?_
  omega

/-- Witness for C10 at the concrete duration 4333123 ms. -/
theorem C10_format_parse_roundtrip_witness :
    4333123 < 2 ^ 53 * 3600000 ∧
      (format_duration 4333123).bind parse_duration =
        .ok (((4333123 / 1000 : Nat) : Int) * 1000) :=
  ⟨by norm_num, C10_format_parse_roundtrip 4333123 (by norm_num)⟩

/-! ### Lemmas about slugs (C7) -/

theorem alnum_ne_underscore {c : Char} (h : isAlnumAscii c = true) : c ≠ '_' := by
  intro he
  subst he
  exact absurd h (by decide)

theorem collapseSep_cons_of_ne {a : Char} (ha : a ≠ '_') (m : List Char) :
    collapseSep (a :: m) = a :: collapseSep m := by
  cases m with
  | nil => rfl
  | cons b r =>
    rw [collapseSep, if_neg]
    intro hc
    exact ha hc.1

/-- The replacement character as `slugify` maps it. -/
theorem slugifyAux_collapse : ∀ l : List Char,
    (∀ prev : Option Char, prev ≠ some '_' →
      slugifyAux '_' l prev =
        collapseSep (l.map (fun c => if isAlnumAscii c then c else '_'))) ∧
    ('_' :: slugifyAux '_' l (some '_') =
      collapseSep ('_' :: l.map (fun c => if isAlnumAscii c then c else '_'))) := by
  intro l
  induction l with
  | nil => exact ⟨fun _ _ => rfl, rfl⟩
  | cons c rest ih =>
    rcases ih with ⟨ih1, ih2⟩
    constructor
    · intro prev hprev
      rcases ha : isAlnumAscii c with _ | _
      · rw [slugifyAux, if_neg (by simp [ha]), if_neg hprev]
        simp only [List.map_cons, ha, Bool.false_eq_true, if_false]
        exact ih2
      · rw [slugifyAux, if_pos ha]
        simp only [List.map_cons, ha, if_true]
        rw [collapseSep_cons_of_ne (alnum_ne_underscore ha)]
        rw [ih1 (some c) (by simp [alnum_ne_underscore ha])]
    · rcases ha : isAlnumAscii c with _ | _
      · rw [slugifyAux, if_neg (by simp [ha]), if_pos rfl]
        simp only [List.map_cons, ha, Bool.false_eq_true, if_false]
        rw [collapseSep]
        rw [if_pos ⟨rfl, rfl⟩]
        exact ih2
      · rw [slugifyAux, if_pos ha]
        simp only [List.map_cons, ha, if_true]
        rw [collapseSep, if_neg (fun hc => alnum_ne_underscore ha hc.2)]
        rw [collapseSep_cons_of_ne (alnum_ne_underscore ha)]
        rw [ih1 (some c) (by simp [alnum_ne_underscore ha])]

theorem slugify_eq_spec (s : String) : slugify s = slugifySpec s := by
  rw [slugify, slugifySpec]
  rw [(slugifyAux_collapse s.data).1 none (by simp)]

/-- The rewrite in `src/abap/utils.py` does not collapse runs: on the
scenario input it keeps both underscores of each run, unlike the
`src/abap.py` `slugify` the claim describes. -/
theorem utils_slugify_no_collapse : utils_slugify "Foo (Bar) 9!" = "foo__bar__9" := by
  decide

/-! ### Claim theorem C7 -/

/-- C7: `slugify "Foo (Bar) 9!" = "foo_bar_9"`, and in general `slugify`
replaces each maximal run of consecutive non-alphanumerics by one underscore,
strips leading and trailing underscores, and lower-cases (the spec-worded
`slugifySpec`). -/
theorem C7_slugify_spec :
    slugify "Foo (Bar) 9!" = "foo_bar_9" ∧ ∀ s : String, slugify s = slugifySpec s :=
  ⟨by decide, slugify_eq_spec⟩

/-! ### Lemmas about the merge engine (C1 to C4) -/

theorem applyToLast_map_path (p : String) (f : Item → Item)
    (hf : ∀ it, (f it).path = it.path) :
    ∀ l : List Item, (applyToLast p f l).map (fun it => it.path) = l.map (fun it => it.path) := by
  intro l
  induction l with
  | nil => rfl
  | cons x xs ih =>
    rw [applyToLast]
    rcases h1 : xs.any (fun y => y.path == p) with _ | _
    · simp only [Bool.false_eq_true, if_false]
      rcases h2 : x.path == p with _ | _
      · simp only [Bool.false_eq_true, if_false, List.map_cons, ih]
      · simp only [if_true, List.map_cons, hf x]
    · simp only [if_true, List.map_cons, ih]

theorem applyToLast_forall {P : Item → Prop} {f : Item → Item} {p : String}
    (hPf : ∀ it, P it → P (f it)) :
    ∀ {l : List Item}, (∀ it ∈ l, P it) → ∀ it ∈ applyToLast p f l, P it := by
  intro l
  induction l with
  | nil => intro _ it hit; exact absurd hit (List.not_mem_nil it)
  | cons x xs ih =>
    intro hl it hit
    rw [applyToLast] at hit
    rcases h1 : xs.any (fun y => y.path == p) with _ | _
    · rw [h1] at hit
      simp only [Bool.false_eq_true, if_false] at hit
      rcases h2 : x.path == p with _ | _
      · rw [h2] at hit
        simp only [Bool.false_eq_true, if_false] at hit
        rcases List.mem_cons.mp hit with he | hm
        · exact he ▸ hl x (List.mem_cons_self x xs)
        · exact ih (fun a ha => hl a (List.mem_cons_of_mem x ha)) it hm
      · rw [h2] at hit
        simp only [if_true] at hit
        rcases List.mem_cons.mp hit with he | hm
        · exact he ▸ hPf x (hl x (List.mem_cons_self x xs))
        · exact hl it (List.mem_cons_of_mem x hm)
    · rw [h1] at hit
      simp only [if_true] at hit
      rcases List.mem_cons.mp hit with he | hm
      · exact he ▸ hl x (List.mem_cons_self x xs)
      · exact ih (fun a ha => hl a (List.mem_cons_of_mem x ha)) it hm

theorem mergeItemsFold_map_path (dir : String) :
    ∀ (mis : List MItem) (l : List Item),
      ((mis.foldl
        (fun acc mi => applyToLast (joinPath dir mi.path) (applyItemOverrides mi) acc)
        l).map (fun it => it.path)) = l.map (fun it => it.path) := by
  intro mis
  induction mis with
  | nil => intro l; rfl
  | cons mi mis ih =>
    intro l
    rw [List.foldl_cons, ih]
    exact applyToLast_map_path (joinPath dir mi.path) (applyItemOverrides mi) (fun _ => rfl) l

theorem mergeItemsFold_seq_none (dir : String) :
    ∀ (mis : List MItem), (∀ mi ∈ mis, mi.sequence = none) →
      ∀ (l : List Item), (∀ it ∈ l, it.sequence = none) →
      ∀ it ∈ (mis.foldl
        (fun acc mi => applyToLast (joinPath dir mi.path) (applyItemOverrides mi) acc) l),
        it.sequence = none := by
  intro mis
  induction mis with
  | nil => intro _ l hl; exact hl
  | cons mi mis ih =>
    intro hmis l hl
    rw [List.foldl_cons]
    refine ih (fun a ha => hmis a (List.mem_cons_of_mem mi ha)) _ ?_
    refine applyToLast_forall (f := applyItemOverrides mi) ?_ hl
    intro it hit
    have hmi : mi.sequence = none := hmis mi (List.mem_cons_self mi mis)
    simp only [applyItemOverrides, hmi, Option.none_or]
    exact hit

theorem merge_items_map_path (dir : String) (A : Abook) (M : Manifest) :
    (merge dir A M).items.map (fun it => it.path) = A.items.map (fun it => it.path) :=
  mergeItemsFold_map_path dir _ _

theorem merge_items_seq_none (dir : String) (A : Abook) (M : Manifest)
    (hA : ∀ it ∈ A.items, it.sequence = none)
    (hM : ∀ mi ∈ M.items.getD [], mi.sequence = none) :
    ∀ it ∈ (merge dir A M).items, it.sequence = none :=
  mergeItemsFold_seq_none dir _ hM _ hA

theorem dictLookup_cons (e : String × Nat) (m : List (String × Nat)) (k : String) :
    dictLookup (e :: m) k =
      (dictLookup m k).or (if e.1 == k then some e.2 else none) := by
  rw [dictLookup, dictLookup, List.reverse_cons, List.find?_append]
  rcases h : m.reverse.find? (fun p => p.1 == k) with _ | v
  · rcases h2 : (e.1 == k) with _ | _ <;> simp [h, List.find?, h2, Option.or]
  · simp [h, Option.or]

theorem dictLookup_eq_none {m : List (String × Nat)} {k : String}
    (h : ∀ e ∈ m, ¬ e.1 = k) : dictLookup m k = none := by
  rw [dictLookup, List.find?_eq_none.mpr, Option.map_none']
  intro x hx
  simp only [beq_iff_eq]
  exact h x (List.mem_reverse.mp hx)

theorem enum_map_fst (items : List Item) :
    ∀ k : Nat, ((enumerateFrom k items).map (fun p => (p.2.path, p.1))).map
      (fun e => e.1) = items.map (fun it => it.path) := by
  induction items with
  | nil => intro k; rfl
  | cons it rest ih =>
    intro k
    simp only [enumerateFrom, List.map_cons, ih]

theorem dictLookup_enum (items : List Item)
    (hnd : (items.map (fun it => it.path)).Nodup) :
    ∀ (k j : Nat) (h : j < items.length),
      dictLookup ((enumerateFrom k items).map (fun p => (p.2.path, p.1)))
        ((items.get ⟨j, h⟩).path) = some (k + j) := by
  induction items with
  | nil => intro k j h; exact absurd h (by simp)
  | cons it rest ih =>
    intro k j h
    rw [List.map_cons] at hnd
    have hhead : it.path ∉ rest.map (fun i => i.path) := (List.nodup_cons.mp hnd).1
    have hndr : (rest.map (fun i => i.path)).Nodup := (List.nodup_cons.mp hnd).2
    rw [enumerateFrom, List.map_cons, dictLookup_cons]
    cases j with
    | zero =>
      have hnone : dictLookup ((enumerateFrom (k + 1) rest).map
          (fun p => (p.2.path, p.1))) it.path = none := by
        refine dictLookup_eq_none ?_
        intro e he hek
        refine hhead ?_
        have : e.1 ∈ ((enumerateFrom (k + 1) rest).map
            (fun p => (p.2.path, p.1))).map (fun x => x.1) := List.mem_map_of_mem _ he
        rw [enum_map_fst] at this
        exact hek ▸ this
      simp only [List.get]
      rw [hnone]
      simp
    | succ j =>
      simp only [List.get]
      rw [ih hndr (k + 1) j (Nat.lt_of_succ_lt_succ h)]
      simp only [Option.or]
      exact congrArg some (by omega)

theorem pairwise_path_le_of_lt {items : List Item}
    (h : items.Pairwise (fun a b => strLt a.path b.path = true)) :
    items.Pairwise (fun a b => strLe a.path b.path = true) :=
  h.imp (fun hab => strLe_of_lt hab)

theorem nodup_paths_of_sorted {items : List Item}
    (h : items.Pairwise (fun a b => strLt a.path b.path = true)) :
    (items.map (fun it => it.path)).Nodup := by
  have hp : (items.map (fun it => it.path)).Pairwise (fun a b => a ≠ b) :=
    List.pairwise_map.mpr (h.imp (fun hab => ne_of_strLt hab))
  exact hp

theorem original_sequences_of_sorted (items : List Item)
    (hsort : items.Pairwise (fun a b => strLt a.path b.path = true)) :
    original_sequences items =
      (enumerateFrom 1 items).map (fun p => (p.2.path, p.1)) := by
  rw [original_sequences, List.Sorted.insertionSort_eq (pairwise_path_le_of_lt hsort)]

theorem item_sorter_key_of_sorted (items : List Item)
    (hsort : items.Pairwise (fun a b => strLt a.path b.path = true))
    (hseq : ∀ it ∈ items, it.sequence = none)
    (j : Nat) (h : j < items.length) :
    item_sorter_key items (items.get ⟨j, h⟩) = ((1 + j : Nat) : Int) := by
  rw [item_sorter_key]
  rw [hseq _ (items.get_mem j h)]
  rw [original_sequences_of_sorted items hsort]
  rw [dictLookup_enum items (nodup_paths_of_sorted hsort) 1 j h]
  rfl

theorem insertionSort_sorter_eq (items : List Item)
    (hsort : items.Pairwise (fun a b => strLt a.path b.path = true))
    (hseq : ∀ it ∈ items, it.sequence = none) :
    items.insertionSort
      (fun a b => item_sorter_key items a ≤ item_sorter_key items b) = items := by
  apply List.Sorted.insertionSort_eq
  rw [List.Sorted, List.pairwise_iff_get]
  intro i j hij
  rw [item_sorter_key_of_sorted items hsort hseq i.1 i.2,
    item_sorter_key_of_sorted items hsort hseq j.1 j.2]
  have : i.1 < j.1 := hij
  omega

theorem merge_empty (dir : String) (A : Abook) : merge dir A emptyManifest = A := rfl

/-! ### Claim theorems C1 to C5 -/

/-- C1 counterexample: with derived items `[b.mp3, a.mp3]` and a complete
manifest listing `[b.mp3, a.mp3]` with no sequence on either item, the merged
order is `[a.mp3, b.mp3]` (sorted path order), not the manifest listing order
`[b.mp3, a.mp3]` the claim requires. -/
theorem C1_counterexample :
    (merge_manifest "r" scenarioBookBA (some scenarioManifestBA)).items.map
        (fun it => it.path) = ["r/a.mp3", "r/b.mp3"] ∧
      (["r/a.mp3", "r/b.mp3"] : List String) ≠ ["r/b.mp3", "r/a.mp3"] :=
  ⟨by decide, by decide⟩

/-- C1 (amended): when neither the derived items nor the manifest entries set
an explicit sequence, `merge_manifest` orders the merged items by sorted path
order (the fallback of `make_item_sorter`), regardless of the order in which a
complete manifest lists them. -/
theorem C1_fallback_is_path_order (dir : String) (A : Abook) (M : Manifest)
    (hsort : A.items.Pairwise (fun a b => strLt a.path b.path = true))
    (hseq : ∀ it ∈ A.items, it.sequence = none)
    (hmseq : ∀ mi ∈ M.items.getD [], mi.sequence = none) :
    (merge_manifest dir A (some M)).items.map (fun it => it.path)
      = A.items.map (fun it => it.path) := by
  have hmap : (merge dir A M).items.map (fun it => it.path)
      = A.items.map (fun it => it.path) := merge_items_map_path dir A M
  have hsort2 : (merge dir A M).items.Pairwise
      (fun a b => strLt a.path b.path = true) := by
    have h1 : (A.items.map (fun it => it.path)).Pairwise
        (fun a b => strLt a b = true) := List.pairwise_map.mpr hsort
    rw [← hmap] at h1
    exact List.pairwise_map.mp h1
  have hseq2 := merge_items_seq_none dir A M hseq hmseq
  simp only [merge_manifest, Option.getD_some]
  rw [insertionSort_sorter_eq _ hsort2 hseq2, hmap]

/-- Witness for C1 (amended): path-sorted derived items `[a.mp3, b.mp3]` with
the complete manifest listing `[b.mp3, a.mp3]` merge in path order. -/
theorem C1_fallback_is_path_order_witness :
    (merge_manifest "r" scenarioBookAB (some scenarioManifestBA)).items.map
        (fun it => it.path)
      = scenarioBookAB.items.map (fun it => it.path) :=
  C1_fallback_is_path_order "r" scenarioBookAB scenarioManifestBA
    (by decide) (by decide) (by decide)

/-- C2: merging a derived audiobook with no manifest data returns it
unchanged: every channel field and the item list, order included.  The
derived-shape hypotheses hold for every `from_dir` output: items are built in
sorted path order from distinct files and never carry a `sequence` key. -/
theorem C2_merge_empty_identity (dir : String) (A : Abook)
    (hsort : A.items.Pairwise (fun a b => strLt a.path b.path = true))
    (hseq : ∀ it ∈ A.items, it.sequence = none) :
    merge_manifest dir A none = A := by
  simp only [merge_manifest, Option.getD_none, merge_empty]
  rw [insertionSort_sorter_eq _ hsort hseq]

/-- Witness for C2 at a concrete two-item derived audiobook. -/
theorem C2_merge_empty_identity_witness :
    merge_manifest "r" scenarioBookAB none = scenarioBookAB :=
  C2_merge_empty_identity "r" scenarioBookAB (by decide) (by decide)

/-- C3: the merged slug is `slugify` of the manifest title when the manifest
renames the book without setting a slug; the manifest slug verbatim when one
is set; and the derived slug when the manifest title equals the derived title
and no slug is set. -/
theorem C3_merge_slug_resolution (dir : String) (D : Abook) (M : Manifest) :
    (∀ t, M.title = some t → t ≠ D.title → M.slug = none →
      (merge dir D M).slug = slugify t) ∧
    (∀ sl, M.slug = some sl → (merge dir D M).slug = sl) ∧
    (M.title = some D.title → M.slug = none → (merge dir D M).slug = D.slug) := by
  refine ⟨?_, ?_, ?_⟩
  · intro t h1 h2 h3
    simp only [merge, h1, h3, Option.getD_none]
    rw [if_neg h2]
  · intro sl h
    simp only [merge, h, Option.getD_some]
  · intro h1 h2
    simp only [merge, h1, h2, Option.getD_none]
    simp

/-- Witness for C3: the three slug cases at concrete inputs. -/
theorem C3_merge_slug_resolution_witness :
    (merge "r" bookFoo { emptyManifest with title := some "New Title" }).slug
        = slugify "New Title" ∧
    (merge "r" bookFoo { emptyManifest with slug := some "custom" }).slug = "custom" ∧
    (merge "r" bookFoo { emptyManifest with title := some "Foo" }).slug = bookFoo.slug :=
  ⟨(C3_merge_slug_resolution "r" bookFoo _).1 "New Title" rfl (by decide) rfl,
   (C3_merge_slug_resolution "r" bookFoo _).2.1 "custom" rfl,
   (C3_merge_slug_resolution "r" bookFoo _).2.2 rfl rfl⟩

/-- C4 counterexample: a manifest retitling the book to `!!!` (which slugifies
to the empty string) with no explicit slug does not make the merge fail; the
merge returns normally and the resulting audiobook has the empty slug. -/
theorem C4_counterexample :
    (merge_manifest "r" bookFoo (some manifestBang)).slug = "" ∧ slugify "!!!" = "" :=
  ⟨by decide, by decide⟩

/-- C4 (amended): `merge` performs no slug validation: when the manifest title
slugifies to the empty string, differs from the derived title, and no explicit
slug is supplied, the merge succeeds and the merged slug is the empty
string. -/
theorem C4_empty_slug_not_fatal (dir : String) (D : Abook) (M : Manifest) (t : String)
    (h1 : M.title = some t) (h2 : slugify t = "") (h3 : t ≠ D.title)
    (h4 : M.slug = none) : (merge dir D M).slug = "" := by
  simp only [merge, h1, h4, Option.getD_none]
  rw [if_neg h3, h2]

/-- Witness for C4 (amended) at the concrete `!!!` manifest. -/
theorem C4_empty_slug_not_fatal_witness :
    manifestBang.title = some "!!!" ∧ slugify "!!!" = "" ∧
      (merge "r" bookFoo manifestBang).slug = "" :=
  ⟨rfl, by decide, C4_empty_slug_not_fatal "r" bookFoo manifestBang "!!!"
    rfl (by decide) (by decide) rfl⟩

/-- C5 counterexample: `from_dir` (`src/abap.py`) performs no emptiness check:
a scan with no audio files yields an audiobook whose item list is empty, with
no error of any kind. -/
theorem C5_counterexample :
    (from_dir [] [] (fun _ => 0) (fun _ => none) (fun _ => emptyTags)).items = [] := rfl

/-- C5 (amended): the `src/abap/abook.py` builder `abook_from_directory` is
fatal on an empty scan (`SystemExit`, modelled as an error), but the
`src/abap.py` builder `from_dir` instead returns an audiobook with an empty
item list. -/
theorem C5_empty_scan_split_behaviour :
    ∀ (covers : List String) (sizeOf : String → Nat)
      (mimetypeOf : String → Option String) (tagsOf : String → Tags)
      (directory : String) (c f i : List String) (tagsOf2 : String → TagsV2),
      (from_dir [] covers sizeOf mimetypeOf tagsOf).items = [] ∧
        abook_from_directory directory [] c f i tagsOf2
          = .error "No audio files found!" := by
  intro covers sizeOf mimetypeOf tagsOf directory c f i tagsOf2
  exact ⟨rfl, rfl⟩

/-! ### Claim theorems C9 (export normalizer) -/

/-- C9 counterexample: the export normalizer drops the `authors` field from
both items of `exportBook`, although neither item has an authors list equal to
the channel-level `["A", "B"]` — the code compares the union of the item
authors, not each item individually as the claim states. -/
theorem C9_counterexample :
    (prepare_for_export "r" exportBook).items.map (fun it => it.authors)
        = [none, none] ∧
      exportBook.items.map (fun it => it.authors) = [some ["A"], some ["B"]] ∧
      (some (["A"] : List String) ≠ some ["A", "B"]) :=
  ⟨by decide, by decide, by decide⟩

/-- C9 (amended): `_prepare_for_export` drops the per-item `authors` field
from every exported item precisely when the union of the item author lists,
as an unordered duplicate-free collection, compares equal to the channel-level
author list (`items_are_equal`); otherwise every exported item keeps its
authors field unchanged. -/
theorem C9_authors_dropped_iff_union (dir : String) (d : Abook) :
    (prepare_for_export dir d).items.map (fun it => it.authors)
      = if items_are_equal
            (dedupFirstSeen (d.items.foldl (fun acc it => acc ++ it.authors.getD []) []))
            d.authors
        then d.items.map (fun _ => none)
        else d.items.map (fun it => it.authors) := by
  rw [prepare_for_export]
  rcases h : items_are_equal
      (dedupFirstSeen (d.items.foldl (fun acc it => acc ++ it.authors.getD []) []))
      d.authors with _ | _
  · simp only [h, Bool.false_eq_true, if_false, List.map_map]
    rfl
  · simp only [h, if_true, List.map_map]
    rfl

/-! ### Lemmas about the scanner (C8) -/

theorem groupByLabel_head_fst (l p : String) (xs : List (String × String)) :
    ∃ ps gs, groupByLabel ((l, p) :: xs) = (l, ps) :: gs := by
  rcases hg : groupByLabel xs with _ | ⟨⟨l2, ps⟩, gs⟩
  · exact ⟨[p], [], by rw [groupByLabel, hg]⟩
  · by_cases h : l = l2
    · exact ⟨p :: ps, gs, by rw [groupByLabel, hg]; simp [h]⟩
    · exact ⟨[p], (l2, ps) :: gs, by rw [groupByLabel, hg]; simp [h]⟩

theorem groupByLabel_ne_nil (x : String × String) (xs : List (String × String)) :
    groupByLabel (x :: xs) ≠ [] := by
  obtain ⟨l, p⟩ := x
  obtain ⟨ps, gs, h⟩ := groupByLabel_head_fst l p xs
  rw [h]
  simp

theorem groupByLabel_head_label (xs : List (String × String)) (l2 : String)
    (ps : List String) (gs : List (String × List String))
    (h : groupByLabel xs = (l2, ps) :: gs) :
    ∃ p2 rest2, xs = (l2, p2) :: rest2 := by
  cases xs with
  | nil => exact absurd h (by simp [groupByLabel])
  | cons x rest2 =>
    obtain ⟨x1, x2⟩ := x
    obtain ⟨ps2, gs2, hh⟩ := groupByLabel_head_fst x1 x2 rest2
    rw [hh] at h
    simp only [List.cons.injEq, Prod.mk.injEq] at h
    exact ⟨x2, rest2, by rw [h.1.1]⟩

theorem dictFind_groupByLabel (k : String) :
    ∀ L : List (String × String), L.Pairwise (fun a b => strLe a.1 b.1 = true) →
      dictFind k (groupByLabel L) =
        (if (L.filter (fun e => e.1 == k)) = [] then none
         else some ((L.filter (fun e => e.1 == k)).map (fun e => e.2))) := by
  intro L
  induction L with
  | nil => intro _; simp [groupByLabel, dictFind]
  | cons e rest ih =>
    intro hp
    obtain ⟨l, p⟩ := e
    have hle : ∀ b ∈ rest, strLe l b.1 = true :=
      fun b hb => (List.pairwise_cons.mp hp).1 b hb
    have hrest := (List.pairwise_cons.mp hp).2
    have hIH := ih hrest
    rw [groupByLabel]
    rcases hg : groupByLabel rest with _ | ⟨⟨l2, ps⟩, gs⟩
    · have hrnil : rest = [] := by
        cases rest with
        | nil => rfl
        | cons x xs => exact absurd hg (groupByLabel_ne_nil x xs)
      subst hrnil
      by_cases hk : l = k
      · subst hk
        simp [dictFind]
      · simp [dictFind, hk]
    · obtain ⟨p2, rest2, hr2⟩ := groupByLabel_head_label rest l2 ps gs hg
      by_cases he : l = l2
      · simp only [hg, if_pos he]
        by_cases hk : l = k
        · rw [dictFind, if_pos hk]
          have hl2k : l2 = k := by rw [← he]; exact hk
          rw [hg, dictFind, if_pos hl2k] at hIH
          rcases hfr : rest.filter (fun e => e.1 == k) with _ | ⟨e0, es⟩
          · rw [hfr] at hIH
            simp at hIH
          · rw [hfr] at hIH
            simp only [if_neg (by simp : ¬ (e0 :: es) = [])] at hIH
            have hps : ps = (e0 :: es).map (fun e => e.2) := Option.some.inj hIH
            rw [List.filter_cons_of_pos (p := fun e : String × String => e.1 == k) (by simp [hk]), hfr]
            simp only [if_neg (by simp : ¬ ((l, p) :: e0 :: es) = []), List.map_cons]
            rw [hps]
            rfl
        · rw [dictFind, if_neg hk]
          have hl2k : ¬ l2 = k := fun h0 => hk (he.trans h0)
          rw [hg, dictFind, if_neg hl2k] at hIH
          rw [hIH, List.filter_cons_of_neg (p := fun e : String × String => e.1 == k) (by simp [hk])]
      · simp only [hg, if_neg he]
        by_cases hk : l = k
        · rw [dictFind, if_pos hk]
          have hfilter : rest.filter (fun e => e.1 == k) = [] := by
            rw [List.filter_eq_nil_iff]
            intro a ha
            simp only [beq_iff_eq]
            intro hak
            rw [hr2] at ha
            rcases List.mem_cons.mp ha with hae | ha2
            · rw [hae] at hak
              exact he (hk.trans hak.symm)
            · have h1 : strLe l2 a.1 = true := by
                rw [hr2] at hrest
                exact (List.pairwise_cons.mp hrest).1 a ha2
              have h2 : strLe l l2 = true :=
                hle (l2, p2) (by rw [hr2]; exact List.mem_cons_self _ _)
              rw [hak, ← hk] at h1
              exact he (strLe_antisymm h2 h1)
          rw [List.filter_cons_of_pos (p := fun e : String × String => e.1 == k) (by simp [hk]), hfilter]
          simp
        · rw [dictFind, if_neg hk]
          rw [hg] at hIH
          rw [hIH, List.filter_cons_of_neg (p := fun e : String × String => e.1 == k) (by simp [hk])]

theorem filter_insertionSort_label (pairs : List (String × String)) (k : String) :
    ((pairs.insertionSort (fun a b => strLe a.1 b.1 = true)).filter (fun e => e.1 == k))
      = pairs.filter (fun e => e.1 == k) := by
  have hcp : (pairs.filter (fun e => e.1 == k)).Pairwise
      (fun a b => strLe a.1 b.1 = true) := by
    apply List.pairwise_of_forall_mem_list
    intro a ha b hb
    have ha2 : a.1 = k := by simpa using (List.mem_filter.mp ha).2
    have hb2 : b.1 = k := by simpa using (List.mem_filter.mp hb).2
    rw [ha2, hb2]
    exact strLe_refl k
  have hsub : List.Sublist (pairs.filter (fun e => e.1 == k))
      (pairs.insertionSort (fun a b => strLe a.1 b.1 = true)) :=
    List.sublist_insertionSort hcp (List.filter_sublist pairs)
  have hcf : (pairs.filter (fun e => e.1 == k)).filter (fun e => e.1 == k)
      = pairs.filter (fun e => e.1 == k) :=
    List.filter_eq_self.mpr (fun a ha => (List.mem_filter.mp ha).2)
  have hsub2 : List.Sublist (pairs.filter (fun e => e.1 == k))
      ((pairs.insertionSort (fun a b => strLe a.1 b.1 = true)).filter
        (fun e => e.1 == k)) := by
    rw [← hcf]
    exact hsub.filter _
  have hlen : ((pairs.insertionSort (fun a b => strLe a.1 b.1 = true)).filter
      (fun e => e.1 == k)).length = (pairs.filter (fun e => e.1 == k)).length :=
    ((List.perm_insertionSort _ pairs).filter _).length_eq
  exact (hsub2.eq_of_length hlen.symm).symm

theorem funcs_filter_unique (k : String) (func : String → Bool) (f : String) :
    ∀ funcs : List (String × (String → Bool)),
      (funcs.map (fun lf => lf.1)).Nodup → (k, func) ∈ funcs →
      funcs.filter (fun lf => (lf.1 == k) && lf.2 f)
        = if func f then [(k, func)] else [] := by
  intro funcs
  induction funcs with
  | nil => intro _ hm; exact absurd hm (List.not_mem_nil _)
  | cons lf rest ih =>
    intro hnd hm
    obtain ⟨l1, f1⟩ := lf
    rw [List.map_cons, List.nodup_cons] at hnd
    by_cases hk : l1 = k
    · have hfe : f1 = func := by
        rcases List.mem_cons.mp hm with he | hm2
        · injection he with h1 h2
          exact h2.symm
        · exfalso
          apply hnd.1
          have hmm : k ∈ rest.map (fun lf => lf.1) :=
            List.mem_map_of_mem (fun lf => lf.1) hm2
          rw [hk]
          exact hmm
      have hrest0 : rest.filter (fun lf => (lf.1 == k) && lf.2 f) = [] := by
        rw [List.filter_eq_nil_iff]
        intro a ha hpa
        simp only [Bool.and_eq_true, beq_iff_eq] at hpa
        apply hnd.1
        have hmm : a.1 ∈ rest.map (fun lf => lf.1) :=
          List.mem_map_of_mem (fun lf => lf.1) ha
        rw [hk]
        rw [hpa.1] at hmm
        exact hmm
      by_cases hf : func f = true
      · rw [List.filter_cons_of_pos (p := fun lf : String × (String → Bool) => (lf.1 == k) && lf.2 f)
            (by simp [hk, hfe, hf]), hrest0, if_pos hf, hk, hfe]
      · rw [List.filter_cons_of_neg (p := fun lf : String × (String → Bool) => (lf.1 == k) && lf.2 f)
            (by simp [hk, hfe, hf]), hrest0, if_neg hf]
    · have hm2 : (k, func) ∈ rest := by
        rcases List.mem_cons.mp hm with he | hm2
        · injection he with h1 h2
          exact absurd h1.symm hk
        · exact hm2
      rw [List.filter_cons_of_neg (p := fun lf : String × (String → Bool) => (lf.1 == k) && lf.2 f) (by simp [hk])]
      exact ih hnd.2 hm2

theorem labeled_scan_iter_cons (f : String) (fs : List String)
    (funcs : List (String × (String → Bool))) :
    labeled_scan_iter (f :: fs) funcs
      = ((funcs.filter (fun lf => lf.2 f)).map (fun lf => (lf.1, f)))
        ++ labeled_scan_iter fs funcs := rfl

theorem iter_filter_label (k : String) (func : String → Bool)
    (funcs : List (String × (String → Bool)))
    (hnd : (funcs.map (fun lf => lf.1)).Nodup) (hmem : (k, func) ∈ funcs) :
    ∀ files : List String,
      (labeled_scan_iter files funcs).filter (fun e => e.1 == k)
        = (files.filter func).map (fun fl => (k, fl)) := by
  intro files
  induction files with
  | nil => rfl
  | cons f fs ih =>
    rw [labeled_scan_iter_cons, List.filter_append, ih, List.filter_map,
      List.filter_filter]
    have hpred : (funcs.filter
        (fun a => ((fun e : String × String => e.1 == k) ∘
          (fun lf : String × (String → Bool) => (lf.1, f))) a
            && (fun lf : String × (String → Bool) => lf.2 f) a))
        = funcs.filter (fun lf => (lf.1 == k) && lf.2 f) := rfl
    rw [hpred, funcs_filter_unique k func f funcs hnd hmem]
    rcases hf : func f with _ | _
    · rw [List.filter_cons_of_neg (by simp [hf])]
      rfl
    · rw [List.filter_cons_of_pos (by simp [hf])]
      rfl

theorem map_snd_mk (k : String) (l : List String) :
    (l.map (fun fl => ((k, fl) : String × String))).map (fun e => e.2) = l := by
  induction l with
  | nil => rfl
  | cons x xs ih => simp only [List.map_cons, ih]

/-! ### Claim theorems C8 -/

/-- C8 counterexample: with directory entries iterated in the order
`[b.mp3, a.mp3]` and a single all-matching classifier, `labeled_scan` returns
the label list `[b.mp3, a.mp3]`, which is not in lexicographic path order (the
stable sort in `labeled_scan` keys on the label alone). -/
theorem C8_counterexample :
    dictFind "audio" (labeled_scan ["b.mp3", "a.mp3"] [("audio", fun _ => true)])
        = some ["b.mp3", "a.mp3"] ∧
      ¬ (["b.mp3", "a.mp3"] : List String).Pairwise (fun a b => strLe a b = true) :=
  ⟨by decide, by decide⟩

/-- C8 (amended): for every traversal order of the files and every classifier
map (unique labels, as a Python dict guarantees), `labeled_scan` returns, for
each label, the matching file paths in traversal order — grouping is by label
only; the per-label lists are not sorted.  (Callers such as `from_dir` sort
the audio list themselves afterwards.) -/
theorem C8_scan_traversal_order (files : List String)
    (funcs : List (String × (String → Bool))) (k : String) (func : String → Bool)
    (hnd : (funcs.map (fun lf => lf.1)).Nodup) (hmem : (k, func) ∈ funcs) :
    dictFind k (labeled_scan files funcs)
      = if files.filter func = [] then none else some (files.filter func) := by
  rw [labeled_scan]
  have hsorted : ((labeled_scan_iter files funcs).insertionSort
      (fun a b => strLe a.1 b.1 = true)).Pairwise
        (fun a b => strLe a.1 b.1 = true) := by
    haveI h1 : IsTotal (String × String) (fun a b => strLe a.1 b.1 = true) :=
      ⟨fun a b => strLe_total a.1 b.1⟩
    haveI h2 : IsTrans (String × String) (fun a b => strLe a.1 b.1 = true) :=
      ⟨fun _ _ _ hab hbc => strLe_trans hab hbc⟩
    exact List.sorted_insertionSort _ _
  rw [dictFind_groupByLabel k _ hsorted]
  rw [filter_insertionSort_label, iter_filter_label k func funcs hnd hmem files]
  rcases hff : files.filter func with _ | ⟨x, xs⟩
  · simp
  · simp only [List.map_cons]
    rw [if_neg (by simp), if_neg (by simp)]
    rw [map_snd_mk k xs]

/-- Witness for C8 (amended) at a concrete two-file scan: the audio list comes
back in traversal order `[b.mp3, a.mp3]`. -/
theorem C8_scan_traversal_order_witness :
    dictFind "audio" (labeled_scan ["b.mp3", "a.mp3"] [("audio", fun _ => true)])
      = some ["b.mp3", "a.mp3"] := by
  have h := C8_scan_traversal_order ["b.mp3", "a.mp3"] [("audio", fun _ => true)]
    "audio" (fun _ => true) (by decide) (List.mem_cons_self _ _)
  simpa using h
